import Mathlib

/-!
Verification of the economy / dice-wager chat plugins.

The repository contains two persisted economy ledger variants and a dice
betting minigame:

* `Econ1` embeds the balance+bank variant (functions `getBalance`,
  `giveMoney`, `takeMoney`, `transferMoney`, `depositBank`, `withdrawBank`,
  `getRichestUsers`).  Its persisted state is a JSON object mapping user id
  to `{balance, bank}` records; we model it as an association list that
  preserves insertion order (JS objects preserve insertion order for string
  keys), with currency amounts as exact rationals (JS numbers).
* `Econ2` embeds the flat variant (plain number balances, boolean results).
* `Dice` embeds the dice game state machine (`/dice start`, `/dice join`,
  and the 60-second auto-cancellation timer callback).

Each ledger operation in the source loads the persisted file, mutates the
in-memory copy, and calls `saveEconomy` to persist; the embedded functions
take the persisted ledger and return the persisted ledger after the call
(the original one when the source returns without saving).  User-visible
reply strings that interpolate run-time values are embedded as inductive
result values, one constructor per `return` statement of the source.
-/

/-- Lookup in a JS-object-as-association-list: first binding of the key. -/
def lookupKey {α : Type} : List (String × α) → String → Option α
  | [], _ => none
  | (k, a) :: rest, u => if k = u then some a else lookupKey rest u

/-- JS assignment `obj[u] = a`: overwrite the existing binding in place,
otherwise append the new binding at the end (insertion order). -/
def setKey {α : Type} : List (String × α) → String → α → List (String × α)
  | [], u, a => [(u, a)]
  | (k, b) :: rest, u, a => if k = u then (k, a) :: rest else (k, b) :: setKey rest u a

/-- JS compound assignment `obj[u] = f(obj[u])` on an existing binding:
rewrite the first binding of the key, leave everything else unchanged. -/
def updateKey {α : Type} : List (String × α) → String → (α → α) → List (String × α)
  | [], _, _ => []
  | (k, a) :: rest, u, f => if k = u then (k, f a) :: rest else (k, a) :: updateKey rest u f

namespace Econ1

/-- Account record of the balance+bank economy variant:
`{ balance: number; bank: number }`. -/
structure Account where
  balance : ℚ
  bank : ℚ
deriving DecidableEq, Repr

/-- Persisted `EconomyData`: mapping from user id to account record. -/
abbrev EconomyData := List (String × Account)

/-- Source: `economy[userID]?.balance || 0` (absent entry denotes zero). -/
def getBalance (e : EconomyData) (u : String) : ℚ :=
  ((lookupKey e u).map Account.balance).getD 0

/-- Source: `if (!economy[userID]) economy[userID] = { balance: 0, bank: 0 };`
(a record is always truthy, so only an absent entry is created). -/
def ensureAcct (e : EconomyData) (u : String) : EconomyData :=
  if (lookupKey e u).isSome then e else setKey e u ⟨0, 0⟩

/-- Source `giveMoney`: create the account if absent, add `amount` to its
balance, save. -/
def giveMoney (e : EconomyData) (u : String) (amount : ℚ) : EconomyData :=
  updateKey (ensureAcct e u) u (fun a => { a with balance := a.balance + amount })

/-- Source `takeMoney`: return without saving if the account is absent,
otherwise clamp the balance at zero (`Math.max(0, balance - amount)`) and
save. -/
def takeMoney (e : EconomyData) (u : String) (amount : ℚ) : EconomyData :=
  match lookupKey e u with
  | none => e
  | some _ => updateKey e u (fun a => { a with balance := max 0 (a.balance - amount) })

/-- Result values of `transferMoney`, one constructor per `return` string:
`notEnough` is "You don't have enough PokéCoins.", `invalidAmount` is
"Invalid amount.", and `sent a toID` is the success message
"You sent (a) PokéCoins to (toID).". -/
inductive TransferResult where
  | notEnough
  | invalidAmount
  | sent (amount : ℚ) (toID : String)
deriving DecidableEq, Repr

/-- Source `transferMoney`: reject when the sender is absent or short of
funds, then when the amount is not positive; otherwise debit the sender,
create the receiver if absent, credit the receiver, save, and return the
success message.  The source has no `fromID == toID` check. -/
def transferMoney (e : EconomyData) (fromID toID : String) (amount : ℚ) :
    TransferResult × EconomyData :=
  match lookupKey e fromID with
  | none => (.notEnough, e)
  | some a =>
    if a.balance < amount then (.notEnough, e)
    else if amount ≤ 0 then (.invalidAmount, e)
    else
      let e1 := updateKey e fromID (fun x => { x with balance := x.balance - amount })
      let e2 := ensureAcct e1 toID
      let e3 := updateKey e2 toID (fun x => { x with balance := x.balance + amount })
      (.sent amount toID, e3)

/-- Result values of the banking functions, one constructor per `return`
string: `invalidDeposit` is "Invalid deposit amount.", `invalidWithdrawal`
is "Invalid withdrawal amount.", and the two success constructors carry the
interpolated numbers of the corresponding success messages. -/
inductive BankResult where
  | invalidDeposit
  | invalidWithdrawal
  | deposited (amount : ℚ)
  | withdrew (amount fee finalAmount : ℚ)
deriving DecidableEq, Repr

/-- Source `depositBank`: create the account if absent (before validation),
reject when `amount <= 0` or the balance is short (returning without
saving), otherwise move `amount` from balance to bank and save. -/
def depositBank (e : EconomyData) (u : String) (amount : ℚ) :
    BankResult × EconomyData :=
  let e1 := ensureAcct e u
  let a := (lookupKey e1 u).getD ⟨0, 0⟩
  if amount ≤ 0 ∨ a.balance < amount then (.invalidDeposit, e)
  else
    (.deposited amount,
      updateKey e1 u (fun x => { x with balance := x.balance - amount, bank := x.bank + amount }))

/-- Source `withdrawBank`: create the account if absent (before validation),
reject when `amount <= 0` or the bank is short (returning without saving),
otherwise compute `fee = Math.ceil(amount * 0.02)` (the exact rational
`2/100` stands for the literal `0.02`), remove the full `amount` from the
bank, credit the balance with `amount - fee`, and save. -/
def withdrawBank (e : EconomyData) (u : String) (amount : ℚ) :
    BankResult × EconomyData :=
  let e1 := ensureAcct e u
  let a := (lookupKey e1 u).getD ⟨0, 0⟩
  if amount ≤ 0 ∨ a.bank < amount then (.invalidWithdrawal, e)
  else
    let fee : ℚ := (⌈amount * (2 / 100)⌉ : ℤ)
    let finalAmount := amount - fee
    (.withdrew amount fee finalAmount,
      updateKey e1 u (fun x => { x with bank := x.bank - amount, balance := x.balance + finalAmount }))

/-- Combined wealth `balance + bank` of an entry, the sort key of the
leaderboard. -/
def wealth (p : String × Account) : ℚ :=
  p.2.balance + p.2.bank

/-- Source comparator `([, a], [, b]) => (b.balance + b.bank) - (a.balance + a.bank)`:
`x` may precede `y` exactly when the comparator is `<= 0`, i.e. when
`wealth y <= wealth x`; JS `Array.prototype.sort` is stable, modelled by the
stable `List.mergeSort`. -/
def sortByWealth (e : EconomyData) : EconomyData :=
  e.mergeSort (fun x y => decide (wealth y ≤ wealth x))

/-- Source `getRichestUsers(start, end)`: the `sortedUsers` list — all
entries sorted by descending `balance + bank` and sliced by
`.slice(start - 1, end)` — which the source then formats into an HTML
leaderboard string. -/
def getRichestUsers (e : EconomyData) (start stop : ℕ) : EconomyData :=
  ((sortByWealth e).drop (start - 1)).take (stop - (start - 1))

/-- Bank component of a user, as read by `getBankBalance`
(`economy[userID]?.bank || 0`). -/
def bankOf (e : EconomyData) (u : String) : ℚ :=
  ((lookupKey e u).map Account.bank).getD 0

end Econ1

namespace Econ2

/-- Persisted `EconomyData` of the flat variant: mapping from user id to a
plain number balance. -/
abbrev EconomyData := List (String × ℚ)

/-- Source: `economy[userID] || 0`. -/
def getBalance (e : EconomyData) (u : String) : ℚ :=
  (lookupKey e u).getD 0

/-- JS truthiness of `economy[userID]` when the stored values are numbers:
an absent entry and a stored `0` are both falsy. -/
def truthyBal (x : Option ℚ) : Bool :=
  match x with
  | none => false
  | some v => decide (v ≠ 0)

/-- Source `giveMoney`: reject a non-positive amount (returning `false`
before touching the file), set the entry to `0` when falsy, add the amount,
save, return `true`. -/
def giveMoney (e : EconomyData) (u : String) (amount : ℚ) : Bool × EconomyData :=
  if amount ≤ 0 then (false, e)
  else
    let e1 := if truthyBal (lookupKey e u) then e else setKey e u 0
    (true, updateKey e1 u (fun v => v + amount))

/-- Source `takeMoney`: reject a non-positive amount; reject when the entry
is falsy (absent or zero) or the balance is below the amount ("prevent
negative balance"), returning `false` without saving; otherwise subtract
and save. -/
def takeMoney (e : EconomyData) (u : String) (amount : ℚ) : Bool × EconomyData :=
  if amount ≤ 0 then (false, e)
  else
    match lookupKey e u with
    | none => (false, e)
    | some v =>
      if v = 0 then (false, e)
      else if v < amount then (false, e)
      else (true, updateKey e u (fun x => x - amount))

/-- Source `transferMoney`: reject a self-transfer or a non-positive
amount; reject when the sender's entry is falsy or below the amount;
otherwise set the receiver's entry to `0` when falsy, debit the sender,
credit the receiver, save, return `true`. -/
def transferMoney (e : EconomyData) (sender receiver : String) (amount : ℚ) :
    Bool × EconomyData :=
  if sender = receiver ∨ amount ≤ 0 then (false, e)
  else
    match lookupKey e sender with
    | none => (false, e)
    | some v =>
      if v = 0 then (false, e)
      else if v < amount then (false, e)
      else
        let e1 := if truthyBal (lookupKey e receiver) then e else setKey e receiver 0
        let e2 := updateKey e1 sender (fun x => x - amount)
        let e3 := updateKey e2 receiver (fun x => x + amount)
        (true, e3)

end Econ2

namespace Dice

/-- Modelled from the spec: the dice plugin calls `Economy.readMoney` /
`Economy.writeMoney` of an economy module that is not among the source
files; per the spec's ledger description, balances form a mapping from
user id to a number, `readMoney` reads a user's balance, and `writeMoney`
adds a (possibly negative) delta to it, as used by the dice game for
escrow debits, payouts and refunds. -/
def Econ : Type := String → ℚ

/-- Modelled from the spec: read a user's balance. -/
def readMoney (m : Econ) (u : String) : ℚ := m u

/-- Modelled from the spec: add `delta` to a user's balance. -/
def writeMoney (m : Econ) (u : String) (delta : ℚ) : Econ :=
  fun v => if v = u then m v + delta else m v

/-- Source `DiceGame` record; the timer handle is modelled by the delay in
milliseconds it was armed with (`none` once cleared / never armed). -/
structure DiceGame where
  host : String
  betAmount : ℚ
  opponent : Option String
  timer : Option ℕ
deriving DecidableEq

/-- Room id of the official casino room (`const CASINO_ROOM = 'casino'`). -/
def CASINO_ROOM : String := "casino"

/-- State visible to the dice commands: the economy balances together with
the `activeDiceGames` table keyed by room id. -/
structure DiceState where
  econ : Econ
  games : String → Option DiceGame

/-- Error replies of the dice commands, one constructor per `errorReply`
of the source: `wrongRoom` ("This command can only be used in the official
casino room"), `gameActive` ("A dice game is already active in this
room."), `invalidBet` ("Please enter a valid bet amount (minimum 1)."),
`cantAffordStart` / `cantAffordJoin` ("You don't have enough … to
start/join this game."), `noGame` ("There is no active Dice Game in this
room."), `twoPlayers` ("This game already has two players."), and
`selfJoin` ("You cannot join your own game."). -/
inductive DiceError where
  | wrongRoom
  | gameActive
  | invalidBet
  | cantAffordStart
  | noGame
  | twoPlayers
  | selfJoin
  | cantAffordJoin
deriving DecidableEq, Repr

/-- Which of the three `join` resolution branches ran. -/
inductive DiceOutcome where
  | hostWin
  | opponentWin
  | tie
deriving DecidableEq, Repr

/-- Source `dice.start`: only in the casino room; rejected while a game is
active in the room; the bet must be a number ≥ 1; the host must afford it;
on success the host is debited immediately and the game is stored with no
opponent and a 60000 ms cancellation timer armed. -/
def start (s : DiceState) (roomid user : String) (bet : ℚ) :
    Except DiceError DiceState :=
  if roomid ≠ CASINO_ROOM then .error .wrongRoom
  else if (s.games roomid).isSome then .error .gameActive
  else if bet < 1 then .error .invalidBet
  else if readMoney s.econ user < bet then .error .cantAffordStart
  else .ok
    { econ := writeMoney s.econ user (-bet),
      games := fun r =>
        if r = roomid then
          some { host := user, betAmount := bet, opponent := none, timer := some 60000 }
        else s.games r }

/-- Source timeout callback armed by `start` (closure over the host and the
bet): if a game is still recorded for the room, refund the host's bet and
delete the game; otherwise do nothing. -/
def timeoutFire (s : DiceState) (roomid host : String) (bet : ℚ) : DiceState :=
  match s.games roomid with
  | some _ =>
    { econ := writeMoney s.econ host bet,
      games := fun r => if r = roomid then none else s.games r }
  | none => s

/-- Source `dice.join`: only in the casino room; requires an active game;
rejects a game that already has an opponent, a self-join, and a joiner who
cannot afford the bet; otherwise clears the pending timer, debits the
joiner, rolls `Math.floor(Math.random() * 6) + 1` for host and opponent
(the two random draws are the `Fin 6` parameters), pays `2 * bet` to the
strictly higher roller or refunds each player their own bet on a tie, and
deletes the game from the table before returning. -/
def join (s : DiceState) (roomid user : String) (hostDraw oppDraw : Fin 6) :
    Except DiceError (DiceOutcome × DiceState) :=
  if roomid ≠ CASINO_ROOM then .error .wrongRoom
  else
    match s.games roomid with
    | none => .error .noGame
    | some game =>
      if (game.opponent).isSome then .error .twoPlayers
      else if user = game.host then .error .selfJoin
      else if readMoney s.econ user < game.betAmount then .error .cantAffordJoin
      else
        let econ1 := writeMoney s.econ user (-game.betAmount)
        let hostRoll : ℕ := hostDraw.val + 1
        let oppRoll : ℕ := oppDraw.val + 1
        let games1 : String → Option DiceGame := fun r => if r = roomid then none else s.games r
        if hostRoll > oppRoll then
          .ok (.hostWin, { econ := writeMoney econ1 game.host (game.betAmount * 2), games := games1 })
        else if hostRoll < oppRoll then
          .ok (.opponentWin, { econ := writeMoney econ1 user (game.betAmount * 2), games := games1 })
        else
          .ok (.tie,
            { econ := writeMoney (writeMoney econ1 game.host game.betAmount) user game.betAmount,
              games := games1 })

end Dice

section AssocLemmas

/-- Updating a key rewrites exactly that key's binding. -/
theorem lookupKey_updateKey_self {α : Type} (e : List (String × α)) (u : String) (f : α → α) :
    lookupKey (updateKey e u f) u = (lookupKey e u).map f := by
  induction e with
  | nil => simp [lookupKey, updateKey]
  | cons p rest ih =>
    obtain ⟨k, a⟩ := p
    by_cases h : k = u
    · simp [lookupKey, updateKey, h]
    · simp [lookupKey, updateKey, h, ih]

/-- Updating a key leaves every other key's binding unchanged. -/
theorem lookupKey_updateKey_ne {α : Type} (e : List (String × α)) (u v : String) (f : α → α)
    (h : v ≠ u) : lookupKey (updateKey e u f) v = lookupKey e v := by
  induction e with
  | nil => simp [lookupKey, updateKey]
  | cons p rest ih =>
    obtain ⟨k, a⟩ := p
    by_cases hk : k = u
    · subst hk
      simp [lookupKey, updateKey, (by simpa using h.symm : ¬k = v)]
    · by_cases hv : k = v <;> simp [lookupKey, updateKey, hk, hv, ih, h]

/-- Setting a key makes exactly that binding visible. -/
theorem lookupKey_setKey_self {α : Type} (e : List (String × α)) (u : String) (a : α) :
    lookupKey (setKey e u a) u = some a := by
  induction e with
  | nil => simp [lookupKey, setKey]
  | cons p rest ih =>
    obtain ⟨k, b⟩ := p
    by_cases h : k = u
    · simp [lookupKey, setKey, h]
    · simp [lookupKey, setKey, h, ih]

/-- Setting a key leaves every other key's binding unchanged. -/
theorem lookupKey_setKey_ne {α : Type} (e : List (String × α)) (u v : String) (a : α)
    (h : v ≠ u) : lookupKey (setKey e u a) v = lookupKey e v := by
  induction e with
  | nil => simp [lookupKey, setKey, (by simpa using h.symm : ¬u = v)]
  | cons p rest ih =>
    obtain ⟨k, b⟩ := p
    by_cases hk : k = u
    · subst hk
      simp [lookupKey, setKey, (by simpa using h.symm : ¬k = v)]
    · by_cases hv : k = v <;> simp [lookupKey, setKey, hk, hv, ih, h]

/-- After `ensureAcct` the account is present, holding its previous record
or the fresh zero record. -/
theorem lookupKey_ensureAcct_self (e : Econ1.EconomyData) (u : String) :
    lookupKey (Econ1.ensureAcct e u) u = some ((lookupKey e u).getD ⟨0, 0⟩) := by
  unfold Econ1.ensureAcct
  cases h : lookupKey e u with
  | none => simp [h, lookupKey_setKey_self]
  | some a => simp [h]

/-- `ensureAcct` leaves every other key's binding unchanged. -/
theorem lookupKey_ensureAcct_ne (e : Econ1.EconomyData) (u v : String) (h : v ≠ u) :
    lookupKey (Econ1.ensureAcct e v) u = lookupKey e u := by
  unfold Econ1.ensureAcct
  cases hv : lookupKey e v with
  | none => simp [hv, lookupKey_setKey_ne e v u _ h.symm]
  | some a => simp [hv]

/-- Ensure-pattern of the flat variant (`if (!economy[u]) economy[u] = 0`):
afterwards the key is bound to its previous value with absent read as 0,
except that a stored 0 is rewritten to 0 (the same value). -/
theorem lookupKey_ensureFlat_self (e : Econ2.EconomyData) (u : String) :
    lookupKey (if Econ2.truthyBal (lookupKey e u) then e else setKey e u 0) u =
      some ((lookupKey e u).getD 0) := by
  cases h : lookupKey e u with
  | none => simp [h, Econ2.truthyBal, lookupKey_setKey_self]
  | some v =>
    by_cases hv : v = 0
    · simp [h, hv, Econ2.truthyBal, lookupKey_setKey_self]
    · simp [h, hv, Econ2.truthyBal]

/-- Ensure-pattern of the flat variant leaves other keys unchanged. -/
theorem lookupKey_ensureFlat_ne (e : Econ2.EconomyData) (u v : String) (h : v ≠ u) :
    lookupKey (if Econ2.truthyBal (lookupKey e u) then e else setKey e u 0) v =
      lookupKey e v := by
  cases hu : lookupKey e u with
  | none => simp [hu, Econ2.truthyBal, lookupKey_setKey_ne e u v _ h]
  | some w =>
    by_cases hw : w = 0
    · simp [hu, hw, Econ2.truthyBal, lookupKey_setKey_ne e u v _ h]
    · simp [hu, hw, Econ2.truthyBal]

end AssocLemmas

/-- C2 counterexample: in the balance+bank variant, taking 10 from a user
whose balance is 5 does not leave the balance unchanged — the source clamps
the balance to zero (`Math.max(0, balance - amount)`) and signals nothing,
so the claimed reject-without-partial-application fails. -/
theorem takeMoney_overdraw_clamps :
    Econ1.getBalance [("u", ⟨5, 0⟩)] "u" = 5 ∧
    Econ1.getBalance (Econ1.takeMoney [("u", ⟨5, 0⟩)] "u" 10) "u" = 0 := by
  constructor
  · norm_num [Econ1.getBalance, lookupKey]
  · norm_num [Econ1.takeMoney, Econ1.getBalance, lookupKey, updateKey]

/-- C2 (amended): an over-draining `takeMoney` is rejected unchanged with a
`false` result in the flat variant, while the balance+bank variant signals
nothing: it silently clamps an existing account's balance to zero (keeping
the bank) and is a silent no-op on an absent account. -/
theorem takeMoney_overdraw (e2 : Econ2.EconomyData) (e1 : Econ1.EconomyData)
    (u : String) (n : ℚ) :
    (Econ2.getBalance e2 u < n → Econ2.takeMoney e2 u n = (false, e2)) ∧
    (∀ a : Econ1.Account, lookupKey e1 u = some a → a.balance < n →
      Econ1.getBalance (Econ1.takeMoney e1 u n) u = 0 ∧
      (lookupKey (Econ1.takeMoney e1 u n) u).map Econ1.Account.bank = some a.bank) ∧
    (lookupKey e1 u = none → Econ1.takeMoney e1 u n = e1) := by
  refine ⟨?_, ?_, ?_⟩
  · intro h2
    unfold Econ2.takeMoney
    by_cases hn : n ≤ 0
    · simp [hn]
    · cases hv : lookupKey e2 u with
      | none => simp [hn, hv]
      | some v =>
        have hvn : v < n := by simpa [Econ2.getBalance, hv] using h2
        by_cases hz : v = 0
        · simp [hn, hv, hz]
        · simp [hn, hv, hz, hvn]
  · intro a ha hb
    unfold Econ1.takeMoney
    rw [ha]
    constructor
    · have hmax : max 0 (a.balance - n) = 0 := max_eq_left (by linarith)
      simp [Econ1.getBalance, lookupKey_updateKey_self, ha, hmax]
    · simp [lookupKey_updateKey_self, ha]
  · intro habs
    simp [Econ1.takeMoney, habs]

/-- C2 witness: concrete instances of both variants at an overdraw. -/
theorem takeMoney_overdraw_witness :
    Econ2.takeMoney [("u", (3 : ℚ))] "u" 10 = (false, [("u", (3 : ℚ))]) ∧
    Econ1.getBalance (Econ1.takeMoney [("v", (⟨5, 1⟩ : Econ1.Account))] "v" 10) "v" = 0 := by
  have h := takeMoney_overdraw [("u", (3 : ℚ))] [("v", (⟨5, 1⟩ : Econ1.Account))] "v" 10
  have h2 := takeMoney_overdraw [("u", (3 : ℚ))] [("v", (⟨5, 1⟩ : Econ1.Account))] "u" 10
  exact ⟨h2.1 (by norm_num [Econ2.getBalance, lookupKey]),
    (h.2.1 ⟨5, 1⟩ (by norm_num [lookupKey]) (by norm_num)).1⟩

/-- C4 counterexample: in the balance+bank variant a self-transfer with
sufficient funds is not rejected — it returns the success outcome message
("You sent 5 PokéCoins to u."), because the source never compares `fromID`
with `toID`. -/
theorem transferMoney_self_succeeds :
    (Econ1.transferMoney [("u", ⟨5, 0⟩)] "u" "u" 5).1 = Econ1.TransferResult.sent 5 "u" := by
  norm_num [Econ1.transferMoney, lookupKey]

/-- C4 (amended): the flat variant fails (returning `false` and mutating
nothing) when `from == to`, `amount ≤ 0`, or the sender's balance is below
the amount, and otherwise debits the sender and credits the receiver
(created if absent); the balance+bank variant fails in the same way only
for an absent sender, insufficient balance, or `amount ≤ 0` — it has no
self-transfer check, so a self-transfer with sufficient funds returns the
success message while leaving the sender's balance unchanged. -/
theorem transferMoney_spec (e1 : Econ1.EconomyData) (e2 : Econ2.EconomyData)
    (f t : String) (n : ℚ) :
    ((lookupKey e1 f = none → Econ1.transferMoney e1 f t n = (.notEnough, e1)) ∧
     (∀ a : Econ1.Account, lookupKey e1 f = some a → a.balance < n →
        Econ1.transferMoney e1 f t n = (.notEnough, e1)) ∧
     (∀ a : Econ1.Account, lookupKey e1 f = some a → n ≤ a.balance → n ≤ 0 →
        Econ1.transferMoney e1 f t n = (.invalidAmount, e1))) ∧
    (∀ a : Econ1.Account, lookupKey e1 f = some a → n ≤ a.balance → 0 < n → f ≠ t →
      (Econ1.transferMoney e1 f t n).1 = .sent n t ∧
      Econ1.getBalance (Econ1.transferMoney e1 f t n).2 f = Econ1.getBalance e1 f - n ∧
      Econ1.getBalance (Econ1.transferMoney e1 f t n).2 t = Econ1.getBalance e1 t + n ∧
      (∀ v, v ≠ f → v ≠ t → lookupKey (Econ1.transferMoney e1 f t n).2 v = lookupKey e1 v)) ∧
    (∀ a : Econ1.Account, lookupKey e1 f = some a → n ≤ a.balance → 0 < n →
      (Econ1.transferMoney e1 f f n).1 = .sent n f ∧
      Econ1.getBalance (Econ1.transferMoney e1 f f n).2 f = Econ1.getBalance e1 f) ∧
    ((f = t ∨ n ≤ 0 ∨ Econ2.getBalance e2 f < n → Econ2.transferMoney e2 f t n = (false, e2)) ∧
     (∀ v : ℚ, f ≠ t → 0 < n → lookupKey e2 f = some v → v ≠ 0 → n ≤ v →
       (Econ2.transferMoney e2 f t n).1 = true ∧
       Econ2.getBalance (Econ2.transferMoney e2 f t n).2 f = v - n ∧
       Econ2.getBalance (Econ2.transferMoney e2 f t n).2 t = Econ2.getBalance e2 t + n ∧
       (∀ w, w ≠ f → w ≠ t → lookupKey (Econ2.transferMoney e2 f t n).2 w = lookupKey e2 w))) := by
  refine ⟨⟨?_, ?_, ?_⟩, ?_, ?_, ?_, ?_⟩
  · intro h
    simp [Econ1.transferMoney, h]
  · intro a ha hlt
    unfold Econ1.transferMoney
    rw [ha]
    simp [hlt]
  · intro a ha hle hn
    unfold Econ1.transferMoney
    rw [ha]
    simp [not_lt.mpr hle, hn]
  · intro a ha hle hn hft
    unfold Econ1.transferMoney
    rw [ha]
    simp only [not_lt.mpr hle, if_false, not_le.mpr hn, if_neg (not_le.mpr hn)]
    refine ⟨by trivial, ?_, ?_, ?_⟩
    · rw [Econ1.getBalance, lookupKey_updateKey_ne _ _ _ _ hft,
        lookupKey_ensureAcct_ne _ _ _ (Ne.symm hft), lookupKey_updateKey_self, ha]
      simp [Econ1.getBalance, ha]
    · rw [Econ1.getBalance, lookupKey_updateKey_self, lookupKey_ensureAcct_self,
        lookupKey_updateKey_ne _ _ _ _ (Ne.symm hft)]
      cases ht : lookupKey e1 t with
      | none => simp [Econ1.getBalance, ht]
      | some b => simp [Econ1.getBalance, ht]
    · intro v hvf hvt
      rw [lookupKey_updateKey_ne _ _ _ _ hvt, lookupKey_ensureAcct_ne _ _ _ (Ne.symm hvt),
        lookupKey_updateKey_ne _ _ _ _ hvf]
  · intro a ha hle hn
    unfold Econ1.transferMoney
    rw [ha]
    simp only [not_lt.mpr hle, if_false, if_neg (not_le.mpr hn)]
    refine ⟨by trivial, ?_⟩
    rw [Econ1.getBalance, lookupKey_updateKey_self, lookupKey_ensureAcct_self,
      lookupKey_updateKey_self, ha]
    simp [Econ1.getBalance, ha]
  · intro h
    rcases h with h | h | h
    · simp [Econ2.transferMoney, h]
    · simp [Econ2.transferMoney, h]
    · by_cases hft : f = t
      · simp [Econ2.transferMoney, hft]
      · by_cases hn : n ≤ 0
        · simp [Econ2.transferMoney, hn]
        · cases hv : lookupKey e2 f with
          | none => simp [Econ2.transferMoney, hft, hn, hv]
          | some v =>
            have hvn : v < n := by simpa [Econ2.getBalance, hv] using h
            by_cases hz : v = 0
            · simp [Econ2.transferMoney, hft, hn, hv, hz]
            · simp [Econ2.transferMoney, hft, hn, hv, hz, hvn]
  · intro v hft hn hv hvz hnv
    unfold Econ2.transferMoney
    rw [hv]
    simp only [hft, not_le.mpr hn, or_self, if_false, if_neg (not_le.mpr hn), hvz,
      if_neg hvz, not_lt.mpr hnv, if_neg (not_lt.mpr hnv)]
    refine ⟨by trivial, ?_, ?_, ?_⟩
    · rw [Econ2.getBalance, lookupKey_updateKey_ne _ _ _ _ hft, lookupKey_updateKey_self,
        lookupKey_ensureFlat_ne _ _ _ hft, hv]
      simp
    · rw [Econ2.getBalance, lookupKey_updateKey_self,
        lookupKey_updateKey_ne _ _ _ _ (Ne.symm hft), lookupKey_ensureFlat_self]
      cases ht : lookupKey e2 t with
      | none => simp [Econ2.getBalance, ht]
      | some b => simp [Econ2.getBalance, ht]
    · intro w hwf hwt
      rw [lookupKey_updateKey_ne _ _ _ _ hwt, lookupKey_updateKey_ne _ _ _ _ hwf,
        lookupKey_ensureFlat_ne _ _ _ hwt]

/-- C4 witness: a concrete cross-user transfer succeeding in both variants
and a concrete self-transfer failing in the flat variant. -/
theorem transferMoney_spec_witness :
    (Econ1.transferMoney [("a", ⟨10, 0⟩)] "a" "b" 4).1 = Econ1.TransferResult.sent 4 "b" ∧
    Econ1.getBalance (Econ1.transferMoney [("a", ⟨10, 0⟩)] "a" "b" 4).2 "b" =
      Econ1.getBalance [("a", ⟨10, 0⟩)] "b" + 4 ∧
    Econ2.transferMoney [("a", (10 : ℚ))] "a" "a" 4 = (false, [("a", (10 : ℚ))]) := by
  have h := transferMoney_spec [("a", ⟨10, 0⟩)] [("a", (10 : ℚ))] "a" "b" 4
  have h2 := transferMoney_spec [("a", ⟨10, 0⟩)] [("a", (10 : ℚ))] "a" "a" 4
  have hs := h.2.1 ⟨10, 0⟩ (by norm_num [lookupKey]) (by norm_num) (by norm_num) (by decide)
  exact ⟨hs.1, hs.2.2.1, h2.2.2.2.1 (Or.inl rfl)⟩

/-- C7: `withdrawBank` with `0 < amount ≤ bank` removes the full amount
from the bank and credits the balance with `amount` minus the fee
`⌈amount * 2/100⌉` (2% rounded up), reporting exactly those numbers, and
touches no other account; with `amount ≤ 0` or `bank < amount` it replies
with the invalid-withdrawal message and the persisted ledger is unchanged. -/
theorem withdrawBank_spec (e : Econ1.EconomyData) (u : String) (n : ℚ) :
    (n ≤ 0 ∨ Econ1.bankOf e u < n →
      Econ1.withdrawBank e u n = (.invalidWithdrawal, e)) ∧
    (0 < n → n ≤ Econ1.bankOf e u →
      (Econ1.withdrawBank e u n).1 =
        .withdrew n ((⌈n * (2 / 100)⌉ : ℤ) : ℚ) (n - ((⌈n * (2 / 100)⌉ : ℤ) : ℚ)) ∧
      Econ1.bankOf (Econ1.withdrawBank e u n).2 u = Econ1.bankOf e u - n ∧
      Econ1.getBalance (Econ1.withdrawBank e u n).2 u =
        Econ1.getBalance e u + (n - ((⌈n * (2 / 100)⌉ : ℤ) : ℚ)) ∧
      (∀ v, v ≠ u → lookupKey (Econ1.withdrawBank e u n).2 v = lookupKey e v)) := by
  have ha : lookupKey (Econ1.ensureAcct e u) u = some ((lookupKey e u).getD ⟨0, 0⟩) :=
    lookupKey_ensureAcct_self e u
  have hbank : ((lookupKey e u).getD ⟨0, 0⟩).bank = Econ1.bankOf e u := by
    cases h : lookupKey e u <;> simp [Econ1.bankOf, h]
  have hbal : ((lookupKey e u).getD ⟨0, 0⟩).balance = Econ1.getBalance e u := by
    cases h : lookupKey e u <;> simp [Econ1.getBalance, h]
  constructor
  · intro hcond
    have hc : n ≤ 0 ∨ ((lookupKey e u).getD ⟨0, 0⟩).bank < n := by
      rcases hcond with h | h
      · exact Or.inl h
      · exact Or.inr (by rw [hbank]; exact h)
    simp only [Econ1.withdrawBank, ha, Option.getD_some, if_pos hc]
  · intro hn hle
    have hc : ¬(n ≤ 0 ∨ ((lookupKey e u).getD ⟨0, 0⟩).bank < n) := by
      push_neg
      exact ⟨hn, by rw [hbank]; exact hle⟩
    simp only [Econ1.withdrawBank, ha, Option.getD_some, if_neg hc]
    refine ⟨by trivial, ?_, ?_, ?_⟩
    · rw [Econ1.bankOf, lookupKey_updateKey_self, ha]
      simp [hbank]
    · rw [Econ1.getBalance, lookupKey_updateKey_self, ha]
      simp [hbal]
    · intro v hv
      rw [lookupKey_updateKey_ne _ _ _ _ hv, lookupKey_ensureAcct_ne _ _ _ (Ne.symm hv)]

/-- C7 witness: withdrawing 50 from a bank of 100 yields fee 1 and credit
49, and a negative withdrawal is rejected unchanged. -/
theorem withdrawBank_spec_witness :
    (Econ1.withdrawBank [("w", ⟨0, 100⟩)] "w" 50).1 =
      Econ1.BankResult.withdrew 50 ((⌈(50 : ℚ) * (2 / 100)⌉ : ℤ) : ℚ)
        (50 - ((⌈(50 : ℚ) * (2 / 100)⌉ : ℤ) : ℚ)) ∧
    Econ1.bankOf (Econ1.withdrawBank [("w", ⟨0, 100⟩)] "w" 50).2 "w" =
      Econ1.bankOf [("w", ⟨0, 100⟩)] "w" - 50 ∧
    Econ1.withdrawBank [("w", ⟨0, 100⟩)] "w" (-3) = (.invalidWithdrawal, [("w", ⟨0, 100⟩)]) := by
  have h := withdrawBank_spec [("w", ⟨0, 100⟩)] "w" 50
  have h2 := withdrawBank_spec [("w", ⟨0, 100⟩)] "w" (-3)
  have hs := h.2 (by norm_num) (by norm_num [Econ1.bankOf, lookupKey])
  exact ⟨hs.1, hs.2.1, h2.1 (Or.inl (by norm_num))⟩

/-- C3: the non-negativity invariant fails in the balance+bank variant.
Starting from an empty ledger, the command-reachable sequence
`giveMoney "u" 1`, `/bank deposit 0.6`, `/bank withdraw 0.5` leaves the
user's balance at -1/10: the withdrawal fee `Math.ceil(0.5 * 0.02) = 1`
exceeds the withdrawn amount, so the credited `finalAmount` is negative. -/
theorem balance_goes_negative :
    Econ1.getBalance
      ((Econ1.withdrawBank
        ((Econ1.depositBank (Econ1.giveMoney [] "u" 1) "u" (3 / 5)).2) "u" (1 / 2)).2) "u"
      = -1 / 10 ∧
    Econ1.getBalance
      ((Econ1.withdrawBank
        ((Econ1.depositBank (Econ1.giveMoney [] "u" 1) "u" (3 / 5)).2) "u" (1 / 2)).2) "u" < 0 := by
  have hfee : (⌈(1 / 100 : ℚ)⌉ : ℤ) = 1 := by
    norm_num [Int.ceil_eq_iff]
  constructor <;>
    norm_num [Econ1.withdrawBank, Econ1.depositBank, Econ1.giveMoney, Econ1.getBalance,
      Econ1.ensureAcct, lookupKey, updateKey, setKey, hfee]

/-- C10: every persisted ledger operation validates before saving — whenever
an operation reports a failure (or silently returns early), the persisted
ledger it hands back is exactly the input ledger, for `takeMoney`,
`transferMoney`, `depositBank`, `withdrawBank` of the balance+bank variant
and `giveMoney`, `takeMoney`, `transferMoney` of the flat variant
(`giveMoney` of the balance+bank variant performs no validation at all). -/
theorem failure_leaves_ledger_unchanged (e1 : Econ1.EconomyData) (e2 : Econ2.EconomyData)
    (u f t : String) (n : ℚ) :
    (lookupKey e1 u = none → Econ1.takeMoney e1 u n = e1) ∧
    ((Econ1.transferMoney e1 f t n).1 = .notEnough ∨
        (Econ1.transferMoney e1 f t n).1 = .invalidAmount →
      (Econ1.transferMoney e1 f t n).2 = e1) ∧
    ((Econ1.depositBank e1 u n).1 = .invalidDeposit → (Econ1.depositBank e1 u n).2 = e1) ∧
    ((Econ1.withdrawBank e1 u n).1 = .invalidWithdrawal →
      (Econ1.withdrawBank e1 u n).2 = e1) ∧
    ((Econ2.giveMoney e2 u n).1 = false → (Econ2.giveMoney e2 u n).2 = e2) ∧
    ((Econ2.takeMoney e2 u n).1 = false → (Econ2.takeMoney e2 u n).2 = e2) ∧
    ((Econ2.transferMoney e2 f t n).1 = false → (Econ2.transferMoney e2 f t n).2 = e2) := by
  refine ⟨?_, ?_, ?_, ?_, ?_, ?_, ?_⟩
  · intro h
    simp [Econ1.takeMoney, h]
  · intro hfail
    cases hv : lookupKey e1 f with
    | none => simp [Econ1.transferMoney, hv]
    | some a =>
      simp only [Econ1.transferMoney, hv] at hfail ⊢
      split_ifs at hfail ⊢ <;>
        first
          | rfl
          | (rcases hfail with h | h <;> simp at h)
  · intro hfail
    simp only [Econ1.depositBank] at hfail ⊢
    split_ifs at hfail ⊢ <;> first | rfl | simp at hfail
  · intro hfail
    simp only [Econ1.withdrawBank] at hfail ⊢
    split_ifs at hfail ⊢ <;> first | rfl | simp at hfail
  · intro hfail
    simp only [Econ2.giveMoney] at hfail ⊢
    split_ifs at hfail ⊢ <;> first | rfl | simp at hfail
  · intro hfail
    by_cases hn : n ≤ 0
    · simp only [Econ2.takeMoney, if_pos hn]
    · cases hv : lookupKey e2 u with
      | none => simp [Econ2.takeMoney, hn, hv]
      | some v =>
        simp only [Econ2.takeMoney, hv, if_neg hn] at hfail ⊢
        split_ifs at hfail ⊢ <;> first | rfl | simp at hfail
  · intro hfail
    by_cases hft : f = t ∨ n ≤ 0
    · simp only [Econ2.transferMoney, if_pos hft]
    · cases hv : lookupKey e2 f with
      | none => simp [Econ2.transferMoney, if_neg hft, hv]
      | some v =>
        simp only [Econ2.transferMoney, hv, if_neg hft] at hfail ⊢
        split_ifs at hfail ⊢ <;> first | rfl | simp at hfail

/-- C10 witness: a deposit with no funds and an over-draining flat transfer
both leave their ledgers untouched. -/
theorem failure_unchanged_witness :
    (Econ1.depositBank [] "u" 5).2 = [] ∧
    (Econ2.transferMoney [("a", (2 : ℚ))] "a" "b" 5).2 = [("a", (2 : ℚ))] := by
  have h := failure_leaves_ledger_unchanged [] [("a", (2 : ℚ))] "u" "a" "b" 5
  exact ⟨h.2.2.1 (by norm_num [Econ1.depositBank, Econ1.ensureAcct, lookupKey, setKey]),
    h.2.2.2.2.2.2 (by norm_num [Econ2.transferMoney, lookupKey])⟩

/-- Transitivity of the leaderboard comparator. -/
theorem wealthLe_trans (a b c : String × Econ1.Account)
    (hab : decide (Econ1.wealth b ≤ Econ1.wealth a) = true)
    (hbc : decide (Econ1.wealth c ≤ Econ1.wealth b) = true) :
    decide (Econ1.wealth c ≤ Econ1.wealth a) = true := by
  simp only [decide_eq_true_eq] at *
  exact le_trans hbc hab

/-- Totality of the leaderboard comparator. -/
theorem wealthLe_total (a b : String × Econ1.Account) :
    (decide (Econ1.wealth b ≤ Econ1.wealth a) || decide (Econ1.wealth a ≤ Econ1.wealth b)) = true := by
  simp only [Bool.or_eq_true, decide_eq_true_eq]
  exact le_total _ _

/-- C8: `getRichestUsers(start, stop)` is the 1-indexed slice `[start, stop]`
of a descending `balance + bank` ranking of all accounts: the ranking
(`sortByWealth`) is a permutation of the ledger entries sorted descending by
wealth; the i-th returned entry is the `(start - 1 + i)`-th ranked entry;
at most `stop - start + 1` entries are returned, pairwise descending; and
entries of equal wealth keep the underlying mapping's iteration order
(stability of the sort). -/
theorem getRichestUsers_spec (e : Econ1.EconomyData) (start stop : ℕ) (hs : 1 ≤ start) :
    (Econ1.sortByWealth e).Perm e ∧
    (Econ1.sortByWealth e).Pairwise (fun x y => Econ1.wealth y ≤ Econ1.wealth x) ∧
    (∀ i : ℕ, i < stop - (start - 1) →
      (Econ1.getRichestUsers e start stop)[i]? = (Econ1.sortByWealth e)[start - 1 + i]?) ∧
    (Econ1.getRichestUsers e start stop).length ≤ stop - start + 1 ∧
    (Econ1.getRichestUsers e start stop).Pairwise (fun x y => Econ1.wealth y ≤ Econ1.wealth x) ∧
    (∀ p q, Econ1.wealth p = Econ1.wealth q → [p, q].Sublist e →
      [p, q].Sublist (Econ1.sortByWealth e)) := by
  have hperm : (Econ1.sortByWealth e).Perm e := List.mergeSort_perm e _
  have hsorted : (Econ1.sortByWealth e).Pairwise
      (fun x y => decide (Econ1.wealth y ≤ Econ1.wealth x) = true) :=
    List.sorted_mergeSort wealthLe_trans wealthLe_total e
  have hsorted' : (Econ1.sortByWealth e).Pairwise
      (fun x y => Econ1.wealth y ≤ Econ1.wealth x) :=
    hsorted.imp (fun h => by simpa using h)
  refine ⟨hperm, hsorted', ?_, ?_, ?_, ?_⟩
  · intro i hi
    unfold Econ1.getRichestUsers
    rw [List.getElem?_take_of_lt hi, List.getElem?_drop]
  · have h1 : (Econ1.getRichestUsers e start stop).length ≤ stop - (start - 1) := by
      unfold Econ1.getRichestUsers
      simpa using List.length_take_le _ _
    omega
  · have hsub : List.Sublist (Econ1.getRichestUsers e start stop) (Econ1.sortByWealth e) := by
      unfold Econ1.getRichestUsers
      exact (List.take_sublist _ _).trans (List.drop_sublist _ _)
    exact hsorted'.sublist hsub
  · intro p q hpq hsub
    refine List.sublist_mergeSort wealthLe_trans wealthLe_total ?_ hsub
    exact List.pairwise_pair.mpr (by simp [hpq])

/-- C8 witness: on a concrete two-user ledger, page 1-10 has at most ten
entries and is sorted descending by `balance + bank`. -/
theorem getRichestUsers_spec_witness :
    (Econ1.getRichestUsers [("p", ⟨1, 0⟩), ("q", ⟨5, 2⟩)] 1 10).length ≤ 10 ∧
    (Econ1.getRichestUsers [("p", ⟨1, 0⟩), ("q", ⟨5, 2⟩)] 1 10).Pairwise
      (fun x y => Econ1.wealth y ≤ Econ1.wealth x) := by
  have h := getRichestUsers_spec [("p", ⟨1, 0⟩), ("q", ⟨5, 2⟩)] 1 10 (by norm_num)
  exact ⟨h.2.2.2.1, h.2.2.2.2.1⟩

/-- Balance after `writeMoney` for the written user: the delta is added. -/
theorem writeMoney_self (m : Dice.Econ) (u : String) (d : ℚ) :
    Dice.writeMoney m u d u = m u + d := by
  simp [Dice.writeMoney]

/-- Balance after `writeMoney` for any other user is unchanged. -/
theorem writeMoney_other (m : Dice.Econ) (u v : String) (d : ℚ) (h : v ≠ u) :
    Dice.writeMoney m u d v = m v := by
  simp [Dice.writeMoney, h]

/-- Elimination of a successful `dice start`: all four validations passed
and the resulting state is the escrow state with the armed game. -/
theorem start_ok_elim {s : Dice.DiceState} {roomid user : String} {bet : ℚ}
    {s' : Dice.DiceState} (h : Dice.start s roomid user bet = .ok s') :
    roomid = Dice.CASINO_ROOM ∧ s.games roomid = none ∧ 1 ≤ bet ∧
    bet ≤ Dice.readMoney s.econ user ∧
    s' = { econ := Dice.writeMoney s.econ user (-bet),
           games := fun r => if r = roomid then
               some { host := user, betAmount := bet, opponent := none, timer := some 60000 }
             else s.games r } := by
  unfold Dice.start at h
  split_ifs at h with h1 h2 h3 h4
  all_goals try exact Except.noConfusion h
  exact ⟨not_ne_iff.mp h1, Option.not_isSome_iff_eq_none.mp h2, not_lt.mp h3,
    not_lt.mp h4, (Except.ok.inj h).symm⟩

/-- Elimination of a successful `dice join`: all validations passed and the
resulting state is one of the three resolution branches. -/
theorem join_ok_elim {s : Dice.DiceState} {roomid user : String} {hd od : Fin 6}
    {out : Dice.DiceOutcome} {s' : Dice.DiceState}
    (h : Dice.join s roomid user hd od = .ok (out, s')) :
    roomid = Dice.CASINO_ROOM ∧
    ∃ g, s.games roomid = some g ∧ g.opponent = none ∧ user ≠ g.host ∧
      g.betAmount ≤ Dice.readMoney s.econ user ∧
      s'.games = (fun r => if r = roomid then none else s.games r) ∧
      ((od.val < hd.val ∧ out = .hostWin ∧
          s'.econ = Dice.writeMoney (Dice.writeMoney s.econ user (-g.betAmount)) g.host
            (g.betAmount * 2)) ∨
       (hd.val < od.val ∧ out = .opponentWin ∧
          s'.econ = Dice.writeMoney (Dice.writeMoney s.econ user (-g.betAmount)) user
            (g.betAmount * 2)) ∨
       (hd.val = od.val ∧ out = .tie ∧
          s'.econ = Dice.writeMoney
            (Dice.writeMoney (Dice.writeMoney s.econ user (-g.betAmount)) g.host g.betAmount)
            user g.betAmount)) := by
  cases hg : s.games roomid with
  | none =>
    simp only [Dice.join, hg] at h
    split_ifs at h <;> exact Except.noConfusion h
  | some g =>
    simp only [Dice.join, hg] at h
    split_ifs at h with h1 h2 h3 h4 h5 h6
    all_goals try exact Except.noConfusion h
    all_goals
      have hpair := Except.ok.inj h
      rw [Prod.mk.injEq] at hpair
      obtain ⟨hout, hstate⟩ := hpair
      refine ⟨not_ne_iff.mp h1, g, rfl, Option.not_isSome_iff_eq_none.mp h2, h3, not_lt.mp h4,
        (congrArg Dice.DiceState.games hstate).symm, ?_⟩
      first
        | exact Or.inl ⟨by omega, hout.symm, (congrArg Dice.DiceState.econ hstate).symm⟩
        | exact Or.inr (Or.inl ⟨by omega, hout.symm, (congrArg Dice.DiceState.econ hstate).symm⟩)
        | exact Or.inr (Or.inr ⟨by omega, hout.symm, (congrArg Dice.DiceState.econ hstate).symm⟩)

/-- C5: `dice start` succeeds only from the idle state — while a game is
recorded for the room it is rejected with the game-active error (so there
is never more than one game per room), and a success implies the room had
no game, the bet passed validation (`bet ≥ 1`, hence positive), the host
could afford it, the host is debited by the bet immediately while no other
balance changes, and the stored game is awaiting an opponent (opponent
`none`) with a 60000 ms cancellation timer armed. -/
theorem start_spec (s : Dice.DiceState) (roomid user : String) (bet : ℚ) :
    (roomid = Dice.CASINO_ROOM → (s.games roomid).isSome →
      Dice.start s roomid user bet = .error .gameActive) ∧
    (∀ s', Dice.start s roomid user bet = .ok s' →
      roomid = Dice.CASINO_ROOM ∧
      s.games roomid = none ∧
      1 ≤ bet ∧ 0 < bet ∧
      bet ≤ Dice.readMoney s.econ user ∧
      Dice.readMoney s'.econ user = Dice.readMoney s.econ user - bet ∧
      (∀ v, v ≠ user → s'.econ v = s.econ v) ∧
      s'.games roomid =
        some { host := user, betAmount := bet, opponent := none, timer := some 60000 } ∧
      (∀ r, r ≠ roomid → s'.games r = s.games r)) := by
  constructor
  · intro hroom hsome
    unfold Dice.start
    rw [if_neg (not_ne_iff.mpr hroom), if_pos hsome]
  · intro s' h
    obtain ⟨hroom, hnone, hbet, hsuff, hs'⟩ := start_ok_elim h
    subst hs'
    refine ⟨hroom, hnone, hbet, by linarith, hsuff, ?_, ?_, ?_, ?_⟩
    · simp [Dice.readMoney, writeMoney_self, sub_eq_add_neg]
    · intro v hv
      exact writeMoney_other _ _ _ _ hv
    · simp
    · intro r hr
      simp [hr]

/-- C5 witness: with 50 coins and an idle room, `start 10` succeeds, debits
the host to 40 and stores the awaiting game; with a game already active,
`start 10` is rejected. -/
theorem start_spec_witness :
    Dice.readMoney
      (⟨Dice.writeMoney (fun _ => 50) "h" (-10),
        fun r => if r = "casino" then some ⟨"h", 10, none, some 60000⟩ else none⟩ :
          Dice.DiceState).econ "h" = 40 ∧
    (⟨Dice.writeMoney (fun _ => 50) "h" (-10),
      fun r => if r = "casino" then some ⟨"h", 10, none, some 60000⟩ else none⟩ :
        Dice.DiceState).games "casino" = some ⟨"h", 10, none, some 60000⟩ ∧
    Dice.start ⟨fun _ => 50, fun _ => some ⟨"x", 1, none, none⟩⟩ "casino" "h" 10 =
      .error .gameActive := by
  have hok : Dice.start ⟨fun _ => 50, fun _ => none⟩ "casino" "h" 10 =
      .ok ⟨Dice.writeMoney (fun _ => 50) "h" (-10),
           fun r => if r = "casino" then some ⟨"h", 10, none, some 60000⟩ else none⟩ := by
    norm_num [Dice.start, Dice.CASINO_ROOM, Dice.readMoney]
  have h := (start_spec ⟨fun _ => 50, fun _ => none⟩ "casino" "h" 10).2 _ hok
  have h2 := (start_spec ⟨fun _ => 50, fun _ => some ⟨"x", 1, none, none⟩⟩ "casino" "h" 10).1
    rfl (by simp)
  refine ⟨?_, ?_, h2⟩
  · have h40 := h.2.2.2.2.2.1
    rw [h40]
    norm_num [Dice.readMoney]
  · exact h.2.2.2.2.2.2.2.1

/-- C6: `dice join` succeeds only when a game awaits an opponent in the
room: with no game recorded it errors; a waiting game rejects its own host
joining and a joiner who cannot afford the bet; on success the two rolls
`draw + 1` lie in [1, 6], the full pot `bet * 2` goes to the strictly
higher roller while a tie refunds each player their own stake, every other
balance is unchanged, the room's game entry is deleted within the same
invocation, and the start timer's callback can no longer change the state. -/
theorem join_spec (s : Dice.DiceState) (roomid user : String) (hd od : Fin 6) :
    (roomid = Dice.CASINO_ROOM → s.games roomid = none →
      Dice.join s roomid user hd od = .error .noGame) ∧
    (∀ g : Dice.DiceGame, roomid = Dice.CASINO_ROOM → s.games roomid = some g →
      g.opponent = none → user = g.host →
      Dice.join s roomid user hd od = .error .selfJoin) ∧
    (∀ g : Dice.DiceGame, roomid = Dice.CASINO_ROOM → s.games roomid = some g →
      g.opponent = none → user ≠ g.host → Dice.readMoney s.econ user < g.betAmount →
      Dice.join s roomid user hd od = .error .cantAffordJoin) ∧
    (∀ out s', Dice.join s roomid user hd od = .ok (out, s') →
      ∃ g, s.games roomid = some g ∧ user ≠ g.host ∧
        g.betAmount ≤ Dice.readMoney s.econ user ∧
        1 ≤ hd.val + 1 ∧ hd.val + 1 ≤ 6 ∧ 1 ≤ od.val + 1 ∧ od.val + 1 ≤ 6 ∧
        (out = .hostWin ↔ od.val + 1 < hd.val + 1) ∧
        (out = .opponentWin ↔ hd.val + 1 < od.val + 1) ∧
        (out = .tie ↔ hd.val + 1 = od.val + 1) ∧
        (out = .hostWin →
          s'.econ g.host = s.econ g.host + g.betAmount * 2 ∧
          s'.econ user = s.econ user - g.betAmount) ∧
        (out = .opponentWin →
          s'.econ user = s.econ user + g.betAmount ∧ s'.econ g.host = s.econ g.host) ∧
        (out = .tie →
          s'.econ g.host = s.econ g.host + g.betAmount ∧ s'.econ user = s.econ user) ∧
        (∀ v, v ≠ g.host → v ≠ user → s'.econ v = s.econ v) ∧
        s'.games roomid = none ∧ (∀ r, r ≠ roomid → s'.games r = s.games r) ∧
        Dice.timeoutFire s' roomid g.host g.betAmount = s') := by
  refine ⟨?_, ?_, ?_, ?_⟩
  · intro hroom hnone
    simp [Dice.join, not_ne_iff.mpr hroom, hnone]
  · intro g hroom hg hopp hself
    simp [Dice.join, not_ne_iff.mpr hroom, hg, hopp, hself]
  · intro g hroom hg hopp hself hlt
    simp [Dice.join, not_ne_iff.mpr hroom, hg, hopp, hself, hlt]
  · intro out s' h
    obtain ⟨hroom, g, hg, hopp, hself, hbet, hgames, hres⟩ := join_ok_elim h
    have hgr : s'.games roomid = none := by rw [hgames]; simp
    have hgo : ∀ r, r ≠ roomid → s'.games r = s.games r := by
      intro r hr
      rw [hgames]
      simp [hr]
    have htf : Dice.timeoutFire s' roomid g.host g.betAmount = s' := by
      unfold Dice.timeoutFire
      rw [hgr]
    refine ⟨g, hg, hself, hbet, by omega, by omega, by omega, by omega,
      ?_, ?_, ?_, ?_, ?_, ?_, ?_, hgr, hgo, htf⟩
    · rcases hres with ⟨hlt, hout, -⟩ | ⟨hlt, hout, -⟩ | ⟨heq, hout, -⟩ <;>
        subst hout <;> simp <;> omega
    · rcases hres with ⟨hlt, hout, -⟩ | ⟨hlt, hout, -⟩ | ⟨heq, hout, -⟩ <;>
        subst hout <;> simp <;> omega
    · rcases hres with ⟨hlt, hout, -⟩ | ⟨hlt, hout, -⟩ | ⟨heq, hout, -⟩ <;>
        subst hout <;> simp <;> omega
    · intro hout
      rcases hres with ⟨hlt, hout2, hecon⟩ | ⟨hlt, hout2, hecon⟩ | ⟨heq, hout2, hecon⟩ <;>
        subst hout2 <;> try simp at hout
      rw [hecon]
      constructor
      · rw [writeMoney_self, writeMoney_other _ _ _ _ (Ne.symm hself)]
      · rw [writeMoney_other _ _ _ _ hself, writeMoney_self]
        ring
    · intro hout
      rcases hres with ⟨hlt, hout2, hecon⟩ | ⟨hlt, hout2, hecon⟩ | ⟨heq, hout2, hecon⟩ <;>
        subst hout2 <;> try simp at hout
      rw [hecon]
      constructor
      · rw [writeMoney_self, writeMoney_self]
        ring
      · rw [writeMoney_other _ _ _ _ (Ne.symm hself), writeMoney_other _ _ _ _ (Ne.symm hself)]
    · intro hout
      rcases hres with ⟨hlt, hout2, hecon⟩ | ⟨hlt, hout2, hecon⟩ | ⟨heq, hout2, hecon⟩ <;>
        subst hout2 <;> try simp at hout
      rw [hecon]
      constructor
      · rw [writeMoney_other _ _ _ _ (Ne.symm hself), writeMoney_self,
          writeMoney_other _ _ _ _ (Ne.symm hself)]
      · rw [writeMoney_self, writeMoney_other _ _ _ _ hself, writeMoney_self]
        ring
    · intro v hvh hvu
      rcases hres with ⟨hlt, hout2, hecon⟩ | ⟨hlt, hout2, hecon⟩ | ⟨heq, hout2, hecon⟩ <;>
        rw [hecon] <;>
        simp [writeMoney_other _ _ _ _ hvh, writeMoney_other _ _ _ _ hvu]

/-- C6 witness: host "h" (bet 10 already escrowed) awaits; opponent "o"
holding 50 joins with draws 5 and 1 (rolls 6 and 2): the host wins the pot
("h": 40 to 60, "o": 50 to 40) and the room slot is freed immediately. -/
theorem join_spec_witness :
    Dice.join
        ⟨fun u => if u = "h" then 40 else 50,
         fun r => if r = "casino" then some ⟨"h", 10, none, some 60000⟩ else none⟩
        "casino" "o" (5 : Fin 6) (1 : Fin 6) =
      .ok (.hostWin,
        ⟨Dice.writeMoney
            (Dice.writeMoney (fun u => if u = "h" then 40 else 50) "o" (-10)) "h" (10 * 2),
         fun r => if r = "casino" then none
           else (fun r => if r = "casino" then
             some (⟨"h", 10, none, some 60000⟩ : Dice.DiceGame) else none) r⟩) ∧
      (⟨Dice.writeMoney
          (Dice.writeMoney (fun u => if u = "h" then 40 else 50) "o" (-10)) "h" (10 * 2),
        fun r => if r = "casino" then none
          else (fun r => if r = "casino" then
            some (⟨"h", 10, none, some 60000⟩ : Dice.DiceGame) else none) r⟩ :
          Dice.DiceState).econ "h" = 60 ∧
      (⟨Dice.writeMoney
          (Dice.writeMoney (fun u => if u = "h" then 40 else 50) "o" (-10)) "h" (10 * 2),
        fun r => if r = "casino" then none
          else (fun r => if r = "casino" then
            some (⟨"h", 10, none, some 60000⟩ : Dice.DiceGame) else none) r⟩ :
          Dice.DiceState).econ "o" = 40 ∧
      (⟨Dice.writeMoney
          (Dice.writeMoney (fun u => if u = "h" then 40 else 50) "o" (-10)) "h" (10 * 2),
        fun r => if r = "casino" then none
          else (fun r => if r = "casino" then
            some (⟨"h", 10, none, some 60000⟩ : Dice.DiceGame) else none) r⟩ :
          Dice.DiceState).games "casino" = none := by
  have hok : Dice.join
      ⟨fun u => if u = "h" then 40 else 50,
       fun r => if r = "casino" then some ⟨"h", 10, none, some 60000⟩ else none⟩
      "casino" "o" (5 : Fin 6) (1 : Fin 6) =
    .ok (.hostWin,
      ⟨Dice.writeMoney
          (Dice.writeMoney (fun u => if u = "h" then 40 else 50) "o" (-10)) "h" (10 * 2),
       fun r => if r = "casino" then none
         else (fun r => if r = "casino" then
           some (⟨"h", 10, none, some 60000⟩ : Dice.DiceGame) else none) r⟩) := rfl
  have h := (join_spec
      ⟨fun u => if u = "h" then 40 else 50,
       fun r => if r = "casino" then some ⟨"h", 10, none, some 60000⟩ else none⟩
      "casino" "o" (5 : Fin 6) (1 : Fin 6)).2.2.2 _ _ hok
  obtain ⟨g, hg, hself, hbet, hb1, hb2, hb3, hb4, hiff1, hiff2, hiff3,
    hpay1, hpay2, hpay3, hoth, hgnone, hgoth, htf⟩ := h
  have hgeq : g = ⟨"h", 10, none, some 60000⟩ := by simpa using hg.symm
  refine ⟨hok, ?_, ?_, hgnone⟩
  · have h1 := (hpay1 rfl).1
    rw [hgeq] at h1
    rw [h1]
    norm_num
  · have h2 := (hpay1 rfl).2
    rw [hgeq] at h2
    rw [h2]
    show (50 : ℚ) - 10 = 40
    norm_num

/-- C9: every game reachable in the `activeDiceGames` table at a command
boundary has `opponent = none` — `start` stores the game with no opponent,
`join` deletes the room's game in the same invocation that would have set
the opponent, and the timeout callback only deletes; consequently, from any
state satisfying the invariant, `join` can never answer with the
"This game already has two players." rejection. -/
theorem opponent_always_none (s : Dice.DiceState)
    (hs : ∀ r g, s.games r = some g → g.opponent = none) :
    (∀ roomid user bet s', Dice.start s roomid user bet = .ok s' →
      ∀ r g, s'.games r = some g → g.opponent = none) ∧
    (∀ roomid user (hd od : Fin 6) out s', Dice.join s roomid user hd od = .ok (out, s') →
      ∀ r g, s'.games r = some g → g.opponent = none) ∧
    (∀ roomid host bet r g,
      (Dice.timeoutFire s roomid host bet).games r = some g → g.opponent = none) ∧
    (∀ roomid user (hd od : Fin 6),
      Dice.join s roomid user hd od ≠ .error .twoPlayers) := by
  refine ⟨?_, ?_, ?_, ?_⟩
  · intro roomid user bet s' h r g hg
    obtain ⟨-, -, -, -, hs'⟩ := start_ok_elim h
    subst hs'
    by_cases hr : r = roomid
    · subst hr
      simp only [if_pos rfl] at hg
      obtain rfl := Option.some.inj hg
      rfl
    · simp only [if_neg hr] at hg
      exact hs r g hg
  · intro roomid user hd od out s' h r g hg
    obtain ⟨-, g0, -, -, -, -, hgames, -⟩ := join_ok_elim h
    rw [hgames] at hg
    by_cases hr : r = roomid
    · simp [hr] at hg
    · simp only [if_neg hr] at hg
      exact hs r g hg
  · intro roomid host bet r g hg
    unfold Dice.timeoutFire at hg
    cases hq : s.games roomid with
    | none =>
      rw [hq] at hg
      exact hs r g hg
    | some q =>
      rw [hq] at hg
      by_cases hr : r = roomid
      · simp [hr] at hg
      · simp only [if_neg hr] at hg
        exact hs r g hg
  · intro roomid user hd od hcontra
    by_cases hroom : roomid ≠ Dice.CASINO_ROOM
    · unfold Dice.join at hcontra
      rw [if_pos hroom] at hcontra
      simp at hcontra
    · cases hg : s.games roomid with
      | none => simp [Dice.join, if_neg hroom, hg] at hcontra
      | some g =>
        have hop := hs roomid g hg
        simp only [Dice.join, if_neg hroom, hg, hop, Option.isSome_none] at hcontra
        split_ifs at hcontra <;> simp_all

/-- C9 witness: from an idle casino room (games table empty, invariant
holds trivially), a join cannot be rejected with the two-players error. -/
theorem opponent_always_none_witness :
    Dice.join ⟨fun _ => 50, fun _ => none⟩ "casino" "o" (0 : Fin 6) (0 : Fin 6) ≠
      .error .twoPlayers := by
  exact (opponent_always_none ⟨fun _ => 50, fun _ => none⟩ (by simp)).2.2.2 "casino" "o" 0 0

/-- C1: the escrow/payout cycle of a dice game conserves total currency
and exactly one terminal outcome occurs.  After a successful `start` by
host `H` with bet `bet`: firing the armed timeout restores every balance
to its pre-game value, frees the slot, and makes any subsequent `join`
fail with the no-game error; alternatively a `join` by `O ≠ H` with
sufficient funds succeeds and yields exactly one of the three outcomes —
host payout (`H` nets `+bet`, `O` nets `-bet`), opponent payout (`O` nets
`+bet`, `H` nets `-bet`), or a tie refunding both stakes — after which the
combined balance of `H` and `O` equals its pre-game value, every other
balance is unchanged, the slot is freed, and the timeout callback can no
longer change the state. -/
theorem dice_conservation (s0 s1 : Dice.DiceState) (roomid H O : String) (bet : ℚ)
    (hd od : Fin 6)
    (hstart : Dice.start s0 roomid H bet = .ok s1)
    (hO : O ≠ H) (hOfunds : bet ≤ s0.econ O) :
    ((∀ v, (Dice.timeoutFire s1 roomid H bet).econ v = s0.econ v) ∧
     (Dice.timeoutFire s1 roomid H bet).games roomid = none ∧
     Dice.join (Dice.timeoutFire s1 roomid H bet) roomid O hd od = .error .noGame) ∧
    (∃ out s2, Dice.join s1 roomid O hd od = .ok (out, s2)) ∧
    (∀ out s2, Dice.join s1 roomid O hd od = .ok (out, s2) →
      (out = .hostWin ∨ out = .opponentWin ∨ out = .tie) ∧
      s2.econ H + s2.econ O = s0.econ H + s0.econ O ∧
      (∀ v, v ≠ H → v ≠ O → s2.econ v = s0.econ v) ∧
      (out = .hostWin → s2.econ H = s0.econ H + bet ∧ s2.econ O = s0.econ O - bet) ∧
      (out = .opponentWin → s2.econ O = s0.econ O + bet ∧ s2.econ H = s0.econ H - bet) ∧
      (out = .tie → s2.econ H = s0.econ H ∧ s2.econ O = s0.econ O) ∧
      s2.games roomid = none ∧
      Dice.timeoutFire s2 roomid H bet = s2) := by
  obtain ⟨hroom, hnone, hbet1, hfunds, hs1⟩ := start_ok_elim hstart
  subst hs1
  have hne : ¬(roomid ≠ Dice.CASINO_ROOM) := not_ne_iff.mpr hroom
  have hnl : ¬(s0.econ O < bet) := not_lt.mpr hOfunds
  refine ⟨⟨?_, ?_, ?_⟩, ?_, ?_⟩
  · intro v
    by_cases hv : v = H
    · subst hv
      simp [Dice.timeoutFire, Dice.writeMoney]
    · simp [Dice.timeoutFire, Dice.writeMoney, hv]
  · simp [Dice.timeoutFire]
  · simp [Dice.join, Dice.timeoutFire, hne]
  · simp only [Dice.join, Dice.readMoney, Dice.writeMoney, hne, ite_false, if_neg hne]
    simp [hO, hnl]
    split_ifs <;> exact ⟨_, _, rfl⟩
  · intro out s2 hjoin
    obtain ⟨-, g, hg, hopp, hselfJ, hbetJ, hgames, hres⟩ := join_ok_elim hjoin
    have hgeq : g = ⟨H, bet, none, some 60000⟩ := by
      simp at hg
      exact hg.symm
    subst hgeq
    dsimp only at hres hbetJ hselfJ
    have hgamesN : s2.games roomid = none := by
      rw [hgames]
      simp
    have htf2 : Dice.timeoutFire s2 roomid H bet = s2 := by
      unfold Dice.timeoutFire
      rw [hgamesN]
    rcases hres with ⟨hlt, rfl, hecon⟩ | ⟨hlt, rfl, hecon⟩ | ⟨heq, rfl, hecon⟩
    · have e1 : s2.econ H = s0.econ H + -bet + bet * 2 := by
        rw [hecon, writeMoney_self, writeMoney_other _ _ _ _ (Ne.symm hO), writeMoney_self]
      have e2 : s2.econ O = s0.econ O + -bet := by
        rw [hecon, writeMoney_other _ _ _ _ hO, writeMoney_self, writeMoney_other _ _ _ _ hO]
      refine ⟨Or.inl rfl, by linarith, ?_, fun _ => ⟨by linarith, by linarith⟩,
        fun habs => by simp at habs, fun habs => by simp at habs, hgamesN, htf2⟩
      intro v hvH hvO
      rw [hecon, writeMoney_other _ _ _ _ hvH, writeMoney_other _ _ _ _ hvO,
        writeMoney_other _ _ _ _ hvH]
    · have e1 : s2.econ O = s0.econ O + -bet + bet * 2 := by
        rw [hecon, writeMoney_self, writeMoney_self, writeMoney_other _ _ _ _ hO]
      have e2 : s2.econ H = s0.econ H + -bet := by
        rw [hecon, writeMoney_other _ _ _ _ (Ne.symm hO),
          writeMoney_other _ _ _ _ (Ne.symm hO), writeMoney_self]
      refine ⟨Or.inr (Or.inl rfl), by linarith, ?_, fun habs => by simp at habs,
        fun _ => ⟨by linarith, by linarith⟩, fun habs => by simp at habs, hgamesN, htf2⟩
      intro v hvH hvO
      rw [hecon, writeMoney_other _ _ _ _ hvO, writeMoney_other _ _ _ _ hvO,
        writeMoney_other _ _ _ _ hvH]
    · have e1 : s2.econ H = s0.econ H + -bet + bet := by
        rw [hecon, writeMoney_other _ _ _ _ (Ne.symm hO), writeMoney_self,
          writeMoney_other _ _ _ _ (Ne.symm hO), writeMoney_self]
      have e2 : s2.econ O = s0.econ O + -bet + bet := by
        rw [hecon, writeMoney_self, writeMoney_other _ _ _ _ hO, writeMoney_self,
          writeMoney_other _ _ _ _ hO]
      refine ⟨Or.inr (Or.inr rfl), by linarith, ?_, fun habs => by simp at habs,
        fun habs => by simp at habs, fun _ => ⟨by linarith, by linarith⟩, hgamesN, htf2⟩
      intro v hvH hvO
      rw [hecon, writeMoney_other _ _ _ _ hvO, writeMoney_other _ _ _ _ hvH,
        writeMoney_other _ _ _ _ hvO, writeMoney_other _ _ _ _ hvH]

/-- C1 witness: for a concrete game (host "h", bet 10, everyone starting
at 50), the timeout refund restores the host's balance, a join after the
timeout is rejected with no-game, a join of the live game succeeds, and
the resulting host+opponent total equals the pre-game total of 100. -/
theorem dice_conservation_witness :
    (Dice.timeoutFire
        ⟨Dice.writeMoney (fun _ => 50) "h" (-10),
         fun r => if r = "casino" then some ⟨"h", 10, none, some 60000⟩ else none⟩
        "casino" "h" 10).econ "h" = 50 ∧
    Dice.join
        (Dice.timeoutFire
          ⟨Dice.writeMoney (fun _ => 50) "h" (-10),
           fun r => if r = "casino" then some ⟨"h", 10, none, some 60000⟩ else none⟩
          "casino" "h" 10) "casino" "o" (5 : Fin 6) (1 : Fin 6) = .error .noGame ∧
    Dice.writeMoney (Dice.writeMoney (Dice.writeMoney (fun _ => 50) "h" (-10)) "o" (-10))
        "h" (10 * 2) "h" +
      Dice.writeMoney (Dice.writeMoney (Dice.writeMoney (fun _ => 50) "h" (-10)) "o" (-10))
        "h" (10 * 2) "o" = 100 := by
  have h := dice_conservation
    ⟨fun _ => 50, fun _ => none⟩
    ⟨Dice.writeMoney (fun _ => 50) "h" (-10),
     fun r => if r = "casino" then some ⟨"h", 10, none, some 60000⟩ else none⟩
    "casino" "h" "o" 10 (5 : Fin 6) (1 : Fin 6) rfl (by decide) (by norm_num)
  have hjoin : Dice.join
      ⟨Dice.writeMoney (fun _ => 50) "h" (-10),
       fun r => if r = "casino" then some ⟨"h", 10, none, some 60000⟩ else none⟩
      "casino" "o" (5 : Fin 6) (1 : Fin 6) =
    .ok (.hostWin,
      ⟨Dice.writeMoney (Dice.writeMoney (Dice.writeMoney (fun _ => 50) "h" (-10)) "o" (-10))
          "h" (10 * 2),
       fun r => if r = "casino" then none
         else (fun r => if r = "casino" then
           some (⟨"h", 10, none, some 60000⟩ : Dice.DiceGame) else none) r⟩) := rfl
  have hsum := (h.2.2 _ _ hjoin).2.1
  simp only at hsum
  refine ⟨h.1.1 "h", h.1.2.2, ?_⟩
  rw [hsum]
  norm_num
